import Mathlib

/-!
Verification of the mpd-utils resilience layer: the per-host reconnect
supervisor (`PersistentClient`) and the multi-host arbitration layer
(`MultiHostClient`).  Pure selection logic is embedded directly; the
background reconnect loop is embedded as the trace of actions one loop
iteration emits; the tokio broadcast channels are embedded as a message
log with per-subscriber cursors and the bounded-buffer lag rule.
-/

set_option maxHeartbeats 1000000

namespace MpdUtils

/-- Play state of the player, mirroring `mpd_client::responses::PlayState`
(exactly three variants: `Stopped`, `Playing`, `Paused`). -/
inductive PlayState where
  | Stopped
  | Playing
  | Paused
deriving DecidableEq, Repr

/-- Command errors are opaque to this layer; we track only their identity. -/
abbrev CommandError := Nat

/-- A session handle (`Arc<Client>`) is opaque; we track only its identity. -/
abbrev ClientHandle := Nat

deriving instance DecidableEq for Except

/-- Snapshot of one `PersistentClient` as `get_current_client` observes it:
its handle, whether `is_connected()` held at filter time, and the outcome
of its `status()` query (the play state on success). -/
structure ClientInfo where
  handle : ClientHandle
  connected : Bool
  statusState : Except CommandError PlayState
deriving DecidableEq, Repr

/-- Rust's `collect::<Result<Vec<_>, _>>()`: succeeds with the list of
values when every element is `Ok`, otherwise fails with the first
`Err` encountered in order. -/
def collectResults {ε α : Type} : List (Except ε α) → Except ε (List α)
  | [] => Except.ok []
  | Except.error e :: _ => Except.error e
  | Except.ok a :: rest => (collectResults rest).map (fun l => a :: l)

/-- The find chain at the heart of `get_current_client`: the first pair
whose state is `Playing`, else the first `Paused`, else the first
`Stopped`, projected to the client. -/
def selectByPriority (pairs : List (ClientHandle × PlayState)) :
    Option ClientHandle :=
  (((pairs.find? (fun p => p.2 == PlayState.Playing)).orElse
      (fun _ => pairs.find? (fun p => p.2 == PlayState.Paused))).orElse
      (fun _ => pairs.find? (fun p => p.2 == PlayState.Stopped))).map Prod.fst

/-- `MultiHostClient::get_current_client` after `wait_for_any_client`
returned: filter to the connected clients; if none, `Ok(None)`; otherwise
join the status queries (failing with the first failure) and apply the
priority selection. -/
def get_current_client (clients : List ClientInfo) :
    Except CommandError (Option ClientHandle) :=
  let connected_clients := clients.filter (fun c => c.connected)
  if connected_clients.isEmpty then
    Except.ok none
  else
    (collectResults (connected_clients.map
        (fun c => c.statusState.map (fun s => (c.handle, s))))).map
      selectByPriority

/-- The `(client, state)` pairs of the connected clients whose status
query succeeded, in registry order. -/
def okPairs (clients : List ClientInfo) : List (ClientHandle × PlayState) :=
  (clients.filter (fun c => c.connected)).filterMap
    (fun c => (Except.toOption c.statusState).map (fun s => (c.handle, s)))

/-- The error of the first connected client (registry order) whose status
query failed, if any. -/
def firstConnectedError (clients : List ClientInfo) : Option CommandError :=
  (clients.filter (fun c => c.connected)).findSome?
    (fun c =>
      match c.statusState with
      | Except.error e => some e
      | Except.ok _ => none)

/-- `c` is the client of the first pair in `pairs` whose state is `s`. -/
def isFirstWith (pairs : List (ClientHandle × PlayState)) (s : PlayState)
    (c : ClientHandle) : Prop :=
  ∃ i, ∃ h : i < pairs.length,
    pairs[i].1 = c ∧ pairs[i].2 = s ∧
      ∀ j, ∀ hj : j < pairs.length, j < i → pairs[j].2 ≠ s

/-- The selection policy as the spec states it: the first pair whose
state is Playing wins; else the first Paused; else the first Stopped;
else no host. -/
def prioritySpec (pairs : List (ClientHandle × PlayState))
    (r : Option ClientHandle) : Prop :=
  if pairs.any (fun p => p.2 == PlayState.Playing) then
    ∃ c, r = some c ∧ isFirstWith pairs PlayState.Playing c
  else if pairs.any (fun p => p.2 == PlayState.Paused) then
    ∃ c, r = some c ∧ isFirstWith pairs PlayState.Paused c
  else if pairs.any (fun p => p.2 == PlayState.Stopped) then
    ∃ c, r = some c ∧ isFirstWith pairs PlayState.Stopped c
  else
    r = none

/-- The two error variants of `error.rs`. -/
inductive Error where
  | NoHostConnectedError
  | CommandError (err : CommandError)
deriving DecidableEq, Repr

/-- `MultiHostClient::with_client`: resolve the current best host, apply
the callback to its handle, and translate the two failure shapes of the
selection into the layer's error type. -/
def with_client {T : Type} (clients : List ClientInfo)
    (f : ClientHandle → T) : Except Error T :=
  match get_current_client clients with
  | Except.ok (some c) => Except.ok (f c)
  | Except.ok none => Except.error Error.NoHostConnectedError
  | Except.error err => Except.error (Error.CommandError err)

/-- An event yielded by a connection's event stream, mirroring
`mpd_client::client::ConnectionEvent`: an ordinary subsystem-change
notification, or the distinguished connection-closed notification. -/
inductive ConnectionEvent where
  | SubsystemChange (sub : Nat)
  | ConnectionClosed (err : Nat)
deriving DecidableEq, Repr

/-- Supervisor connection state, mirroring `persistent_client.rs`'s
`State`: `Disconnected`, or `Connected` with the live handle. -/
inductive State where
  | Disconnected
  | Connected (client : ClientHandle)
deriving DecidableEq, Repr

/-- Outcome of one `try_get_connection` attempt: failure, or success
carrying the new session handle together with the entire contents of the
session's event stream, in emission order. -/
inductive ConnOutcome where
  | fail (err : Nat)
  | ok (client : ClientHandle) (events : List ConnectionEvent)
deriving DecidableEq, Repr

/-- One observable step of the background reconnect loop spawned by
`init()`: starting a connect attempt, writing the shared state, sending
on the connection channel, forwarding an event on the event channel, or
sleeping for the retry interval. -/
inductive Action where
  | connectAttempt
  | setState (s : State)
  | connSend (client : ClientHandle)
  | eventSend (ev : ConnectionEvent)
  | sleep (interval : Nat)
deriving DecidableEq, Repr

/-- The `while let Some(event) = events.next()` pump of `init()`:
forward each event to the broadcast channel, until the distinguished
`ConnectionClosed` arrives, at which point the state is set to
`Disconnected` and the pump breaks; if the stream ends without that
event the pump simply exits, touching nothing. -/
def pumpEvents : List ConnectionEvent → List Action
  | [] => []
  | ConnectionEvent.ConnectionClosed _ :: _ =>
      [Action.setState State.Disconnected]
  | ev :: rest => Action.eventSend ev :: pumpEvents rest

/-- The trace of one iteration of the loop body of `init()`: attempt the
connection; on success publish the handle (state write, then connection
channel send) and pump events; on failure set `Disconnected`; in either
case finish with `sleep(retry_interval)`. -/
def runIteration (retry_interval : Nat) : ConnOutcome → List Action
  | ConnOutcome.fail _ =>
      [Action.connectAttempt, Action.setState State.Disconnected,
        Action.sleep retry_interval]
  | ConnOutcome.ok client events =>
      Action.connectAttempt :: Action.setState (State.Connected client) ::
        Action.connSend client ::
          (pumpEvents events ++ [Action.sleep retry_interval])

/-- The trace of the first `outcomes.length` iterations of the unbounded
reconnect loop. -/
def runLoop (retry_interval : Nat) (outcomes : List ConnOutcome) :
    List Action :=
  (outcomes.map (runIteration retry_interval)).flatten

/-- Effect of one action on the shared state; only `setState` writes. -/
def applyAction (s : State) : Action → State
  | Action.setState s2 => s2
  | _ => s

/-- State of the supervisor after executing a trace from state `s`. -/
def stateAfter (s : State) (tr : List Action) : State :=
  tr.foldl applyAction s

/-- Whether an event is the distinguished connection-closed event. -/
def isClosedEvent : ConnectionEvent → Bool
  | ConnectionEvent.ConnectionClosed _ => true
  | ConnectionEvent.SubsystemChange _ => false

/-- The Session Collaborator contract of the spec: a successful
connection's event stream is terminated by the distinguished
connection-closed event. -/
def wellFormedOutcome : ConnOutcome → Bool
  | ConnOutcome.fail _ => true
  | ConnOutcome.ok _ events => events.any isClosedEvent

def isSleep : Action → Bool
  | Action.sleep _ => true
  | _ => false

def isAttempt : Action → Bool
  | Action.connectAttempt => true
  | _ => false

/-- The events the loop actually forwards to the event channel during one
connection: everything the pump sends before it stops. -/
def forwardedEvents (events : List ConnectionEvent) : List ConnectionEvent :=
  (pumpEvents events).filterMap
    (fun a =>
      match a with
      | Action.eventSend ev => some ev
      | _ => none)

/-- A tokio broadcast channel: the log of every value ever sent together
with the ring capacity.  Only the most recent `capacity` entries remain
readable; older ones are overwritten by later sends. -/
structure BChannel (α : Type) where
  capacity : Nat
  log : List α
deriving Repr

/-- A broadcast receiver: a cursor into the sender's log. -/
structure BReceiver where
  cursor : Nat
deriving DecidableEq, Repr

/-- `Sender::subscribe`: a fresh receiver starts at the current end of
the log, so it observes only values sent after this point. -/
def subscribe {α : Type} (ch : BChannel α) : BReceiver :=
  ⟨ch.log.length⟩

/-- `Sender::send`: append to the log (never blocks; the ring just
forgets the oldest entry once over capacity). -/
def send {α : Type} (ch : BChannel α) (a : α) : BChannel α :=
  { ch with log := ch.log ++ [a] }

def sendAll {α : Type} (ch : BChannel α) (msgs : List α) : BChannel α :=
  msgs.foldl send ch

/-- Outcome of polling `Receiver::recv` once: nothing newer exists yet;
the receiver lagged behind the retained window and is repositioned to the
oldest retained value, reporting how many it missed; or the next value. -/
inductive RecvResult (α : Type) where
  | pending
  | lagged (missed : Nat)
  | received (a : α)
deriving DecidableEq, Repr

/-- One `recv` poll against the channel's current log, mirroring tokio's
broadcast receiver: values older than `log.length - capacity` have been
overwritten; a receiver whose cursor fell below that point gets
`lagged` and is moved to the oldest retained value. -/
def recvStep {α : Type} (ch : BChannel α) (r : BReceiver) :
    RecvResult α × BReceiver :=
  if h : ch.log.length ≤ r.cursor then
    (RecvResult.pending, r)
  else if ch.log.length - r.cursor ≤ ch.capacity then
    (RecvResult.received (ch.log.get ⟨r.cursor, by omega⟩), ⟨r.cursor + 1⟩)
  else
    (RecvResult.lagged (ch.log.length - ch.capacity - r.cursor),
      ⟨ch.log.length - ch.capacity⟩)

/-- Repeatedly poll `recv`, collecting every value observed, until the
receiver is fully caught up (fuel-bounded; the fuel chosen in `drain`
always suffices). -/
def drainFuel {α : Type} (ch : BChannel α) : BReceiver → Nat → List α
  | _, 0 => []
  | r, fuel + 1 =>
    match recvStep ch r with
    | (RecvResult.pending, _) => []
    | (RecvResult.received a, r2) => a :: drainFuel ch r2 fuel
    | (RecvResult.lagged _, r2) => drainFuel ch r2 fuel

/-- Every value a receiver observes when it polls until caught up. -/
def drain {α : Type} (ch : BChannel α) (r : BReceiver) : List α :=
  drainFuel ch r (ch.log.length - r.cursor + 1)

/-- `PersistentClient::recv`: subscribe a fresh receiver at the moment of
the call, then await one value.  `future` is the list of values sent
after the call; the await resolves at the first of them. -/
def recvOnce {α : Type} (ch : BChannel α) (future : List α) : RecvResult α :=
  match future with
  | [] => RecvResult.pending
  | f :: _ => (recvStep (send ch f) (subscribe ch)).1

/-- Outcome of one `wait_for_client()` call. -/
inductive WaitOutcome where
  | immediate (client : ClientHandle)
  | suspendedResolved (client : ClientHandle)
  | suspendedPending
deriving DecidableEq, Repr

/-- `PersistentClient::wait_for_client`: if the state is `Connected`,
return that handle at once; otherwise subscribe to the connection
channel and await the next published handle.  `future` is the list of
handles the reconnect loop publishes after the call. -/
def wait_for_client (s : State) (connCh : BChannel ClientHandle)
    (future : List ClientHandle) : WaitOutcome :=
  match s with
  | State.Connected client => WaitOutcome.immediate client
  | State.Disconnected =>
    match recvOnce connCh future with
    | RecvResult.received c => WaitOutcome.suspendedResolved c
    | _ => WaitOutcome.suspendedPending

/-- The handles the reconnect loop publishes on the connection channel,
one per successful connect, in order. -/
def connSends (outcomes : List ConnOutcome) : List ClientHandle :=
  outcomes.filterMap
    (fun o =>
      match o with
      | ConnOutcome.ok c _ => some c
      | ConnOutcome.fail _ => none)

/-- The handle of the first successful connect among `outcomes`. -/
def firstConnect (outcomes : List ConnOutcome) : Option ClientHandle :=
  (connSends outcomes).head?

/-- A member supervisor as `wait_for_all_clients` sees it: its current
state, its connection channel, and the handles its loop will publish
later. -/
structure SupervisorView where
  state : State
  connCh : BChannel ClientHandle
  futureConnects : List ClientHandle

/-- The handle one member's `wait_for_client()` resolves with, if it
resolves at all. -/
def memberResolution (m : SupervisorView) : Option ClientHandle :=
  match wait_for_client m.state m.connCh m.futureConnects with
  | WaitOutcome.immediate c => some c
  | WaitOutcome.suspendedResolved c => some c
  | WaitOutcome.suspendedPending => none

/-- `futures::future::join_all` over `Option`: resolves exactly when
every component resolves, keeping order. -/
def collectSome {α : Type} : List (Option α) → Option (List α)
  | [] => some []
  | none :: _ => none
  | some a :: rest => (collectSome rest).map (fun l => a :: l)

/-- `MultiHostClient::wait_for_all_clients`: join of every member's
`wait_for_client()`, in registry order. -/
def wait_for_all_clients (members : List SupervisorView) :
    Option (List ClientHandle) :=
  collectSome (members.map memberResolution)

theorem collectResults_map_ok (l : List ClientInfo)
    (h : ∀ c ∈ l, c.statusState.isOk = true) :
    collectResults
        (l.map (fun c => c.statusState.map (fun s => (c.handle, s)))) =
      Except.ok (l.filterMap
        (fun c => (Except.toOption c.statusState).map
          (fun s => (c.handle, s)))) := by
  induction l with
  | nil => rfl
  | cons c rest ih =>
    have hc := h c (List.mem_cons_self _ _)
    cases hst : c.statusState with
    | error e => rw [hst] at hc; simp [Except.isOk, Except.toBool] at hc
    | ok s =>
      have ih2 := ih (fun x hx => h x (List.mem_cons_of_mem _ hx))
      simp only [Except.map] at ih2
      simp only [List.map_cons, List.filterMap_cons, hst, Except.map,
        Except.toOption, collectResults]
      rw [ih2]
      rfl

theorem collectResults_map_error (l : List ClientInfo) (e : CommandError)
    (h : l.findSome?
        (fun c =>
          match c.statusState with
          | Except.error e2 => some e2
          | Except.ok _ => none) = some e) :
    collectResults
        (l.map (fun c => c.statusState.map (fun s => (c.handle, s)))) =
      Except.error e := by
  induction l with
  | nil => simp [List.findSome?] at h
  | cons c rest ih =>
    rw [List.findSome?_cons] at h
    cases hst : c.statusState with
    | error e2 =>
      rw [hst] at h
      simp only at h
      cases h
      simp only [List.map_cons, hst, Except.map, collectResults]
    | ok s =>
      rw [hst] at h
      simp only at h
      have ih2 := ih h
      simp only [Except.map] at ih2
      simp only [List.map_cons, hst, Except.map, collectResults]
      rw [ih2]

theorem get_current_client_eq_ok (clients : List ClientInfo)
    (h : ∀ c ∈ clients, c.connected = true → c.statusState.isOk = true) :
    get_current_client clients =
      Except.ok (selectByPriority (okPairs clients)) := by
  unfold get_current_client okPairs
  by_cases hl : (clients.filter (fun c => c.connected)).isEmpty
  · rw [if_pos hl, List.isEmpty_iff.mp hl]
    rfl
  · rw [if_neg hl]
    rw [collectResults_map_ok _
      (fun c hc =>
        h c (List.mem_filter.mp hc).1 (List.mem_filter.mp hc).2)]
    rfl

theorem selectByPriority_spec (pairs : List (ClientHandle × PlayState)) :
    prioritySpec pairs (selectByPriority pairs) := by
  have toFirst :
      ∀ (s : PlayState) (p : ClientHandle × PlayState),
        pairs.find? (fun q => q.2 == s) = some p → isFirstWith pairs s p.1 := by
    intro s p hfind
    rcases List.find?_eq_some_iff_getElem.mp hfind with ⟨hpb, i, hi, hget, hbefore⟩
    refine ⟨i, hi, by rw [hget], ?_, ?_⟩
    · rw [hget]; exact beq_iff_eq.mp hpb
    · intro j hj hlt
      have hb := hbefore j hlt
      simp only [Bool.not_eq_eq_eq_not, Bool.not_true] at hb
      exact beq_eq_false_iff_ne.mp hb
  have toAny :
      ∀ (s : PlayState) (p : ClientHandle × PlayState),
        pairs.find? (fun q => q.2 == s) = some p →
          pairs.any (fun q => q.2 == s) = true := by
    intro s p hfind
    have hps := List.find?_some hfind
    exact List.any_eq_true.mpr
      ⟨p, List.mem_of_find?_eq_some hfind, hps⟩
  have toAnyNot :
      ∀ s : PlayState, pairs.find? (fun q => q.2 == s) = none →
        pairs.any (fun q => q.2 == s) = false := by
    intro s hfind
    exact List.any_eq_false.mpr (List.find?_eq_none.mp hfind)
  unfold prioritySpec selectByPriority
  cases h1 : pairs.find? (fun q => q.2 == PlayState.Playing) with
  | some p =>
    rw [if_pos (toAny _ p h1)]
    exact ⟨p.1, by simp [Option.orElse], toFirst _ p h1⟩
  | none =>
    rw [if_neg (by simp [toAnyNot _ h1])]
    cases h2 : pairs.find? (fun q => q.2 == PlayState.Paused) with
    | some p =>
      rw [if_pos (toAny _ p h2)]
      exact ⟨p.1, by simp [Option.orElse], toFirst _ p h2⟩
    | none =>
      rw [if_neg (by simp [toAnyNot _ h2])]
      cases h3 : pairs.find? (fun q => q.2 == PlayState.Stopped) with
      | some p =>
        rw [if_pos (toAny _ p h3)]
        exact ⟨p.1, by simp [Option.orElse], toFirst _ p h3⟩
      | none =>
        rw [if_neg (by simp [toAnyNot _ h3])]
        simp [Option.orElse]

/-- C1: when every connected supervisor's play-state query succeeds,
`get_current_client` returns (without error) the first connected
supervisor in registry order whose state is Playing; failing that the
first Paused; failing that the first Stopped; and no host when none of
the three states occurs among the connected supervisors. -/
theorem get_current_client_priority (clients : List ClientInfo)
    (h : ∀ c ∈ clients, c.connected = true → c.statusState.isOk = true) :
    get_current_client clients =
        Except.ok (selectByPriority (okPairs clients)) ∧
      prioritySpec (okPairs clients) (selectByPriority (okPairs clients)) :=
  ⟨get_current_client_eq_ok clients h, selectByPriority_spec _⟩

/-- Witness for C1: three connected hosts with states Stopped, Playing,
Paused in registry order; the Playing host (handle 11) is selected. -/
theorem get_current_client_priority_witness :
    get_current_client
        [⟨10, true, Except.ok PlayState.Stopped⟩,
          ⟨11, true, Except.ok PlayState.Playing⟩,
          ⟨12, true, Except.ok PlayState.Paused⟩] =
      Except.ok (some 11) := by
  rw [(get_current_client_priority
    [⟨10, true, Except.ok PlayState.Stopped⟩,
      ⟨11, true, Except.ok PlayState.Playing⟩,
      ⟨12, true, Except.ok PlayState.Paused⟩] (by decide)).1]
  decide

/-- C2: if any connected supervisor's play-state query fails, the whole
selection fails with the first such failure (in registry order), which
is indeed the failure of one of the connected supervisors; no `Ok`
result is produced from the healthy supervisors' states. -/
theorem get_current_client_fail_fast (clients : List ClientInfo)
    (c0 : ClientInfo) (hc0 : c0 ∈ clients) (hconn : c0.connected = true)
    (hfail : c0.statusState.isOk = false) :
    ∃ e, firstConnectedError clients = some e ∧
      get_current_client clients = Except.error e ∧
      ∃ c ∈ clients, c.connected = true ∧ c.statusState = Except.error e := by
  have hmem : c0 ∈ clients.filter (fun c => c.connected) :=
    List.mem_filter.mpr ⟨hc0, hconn⟩
  obtain ⟨e0, he0⟩ : ∃ e0, c0.statusState = Except.error e0 := by
    cases hst : c0.statusState with
    | error e0 => exact ⟨e0, rfl⟩
    | ok s => rw [hst] at hfail; simp [Except.isOk, Except.toBool] at hfail
  cases hfs : firstConnectedError clients with
  | none =>
    exfalso
    have := List.findSome?_eq_none_iff.mp hfs c0 hmem
    rw [he0] at this
    simp at this
  | some e =>
    refine ⟨e, rfl, ?_, ?_⟩
    · unfold get_current_client
      rw [if_neg (by
        intro hemp
        rw [List.isEmpty_iff.mp hemp] at hmem
        simp at hmem)]
      rw [collectResults_map_error _ e hfs]
      rfl
    · obtain ⟨c, hcmem, hcf⟩ := List.exists_of_findSome?_eq_some hfs
      refine ⟨c, (List.mem_filter.mp hcmem).1, (List.mem_filter.mp hcmem).2, ?_⟩
      cases hst : c.statusState with
      | error e2 => rw [hst] at hcf; simp only at hcf; cases hcf; rfl
      | ok s => rw [hst] at hcf; simp at hcf

/-- Witness for C2: a healthy Playing host plus a host whose query fails
with error 7; selection fails with error 7 despite the healthy host. -/
theorem get_current_client_fail_fast_witness :
    get_current_client
        [⟨0, true, Except.ok PlayState.Playing⟩, ⟨1, true, Except.error 7⟩] =
      Except.error 7 := by
  obtain ⟨e, he, hres, -⟩ :=
    get_current_client_fail_fast
      [⟨0, true, Except.ok PlayState.Playing⟩, ⟨1, true, Except.error 7⟩]
      ⟨1, true, Except.error 7⟩ (by decide) (by decide) (by decide)
  have h7 : firstConnectedError
      [⟨0, true, Except.ok PlayState.Playing⟩, ⟨1, true, Except.error 7⟩] =
        some 7 := by decide
  rw [he] at h7
  rw [Option.some.inj h7] at hres
  exact hres

/-- C3: `with_client` returns `NoHostConnectedError` exactly when the
selection yields no qualifying host, returns `CommandError e` exactly
when the selection itself failed with `e`, applies the callback to the
selected client otherwise, and every successful result comes from the
callback on the selected client — so those two variants are the only
errors this layer produces. -/
theorem with_client_error_taxonomy {T : Type} (clients : List ClientInfo)
    (f : ClientHandle → T) :
    (with_client clients f = Except.error Error.NoHostConnectedError ↔
      get_current_client clients = Except.ok none) ∧
    (∀ e, with_client clients f = Except.error (Error.CommandError e) ↔
      get_current_client clients = Except.error e) ∧
    (∀ c, get_current_client clients = Except.ok (some c) →
      with_client clients f = Except.ok (f c)) ∧
    (∀ t, with_client clients f = Except.ok t →
      ∃ c, get_current_client clients = Except.ok (some c) ∧ t = f c) := by
  cases hg : get_current_client clients with
  | ok o =>
    cases o with
    | none =>
      refine ⟨?_, ?_, ?_, ?_⟩ <;> simp [with_client, hg]
    | some c =>
      refine ⟨?_, ?_, ?_, ?_⟩ <;> simp only [with_client, hg]
      · simp
      · simp
      · intro c2 hc2
        cases hc2
        rfl
      · intro t ht
        exact ⟨c, rfl, (Except.ok.inj ht).symm⟩
  | error e0 =>
    refine ⟨?_, ?_, ?_, ?_⟩ <;> simp [with_client, hg]

/-- Witness for C3: with one connected Stopped host of handle 0, the
callback is applied to handle 0. -/
theorem with_client_error_taxonomy_witness :
    with_client [⟨0, true, Except.ok PlayState.Stopped⟩]
        (fun c => c + 100) =
      Except.ok 100 :=
  (with_client_error_taxonomy
    [⟨0, true, Except.ok PlayState.Stopped⟩] (fun c => c + 100)).2.2.1
    0 (by decide)

theorem stateAfter_append (s : State) (a b : List Action) :
    stateAfter s (a ++ b) = stateAfter (stateAfter s a) b :=
  List.foldl_append applyAction s a b

theorem stateAfter_pumpEvents_closed (events : List ConnectionEvent)
    (h : events.any isClosedEvent = true) (s : State) :
    stateAfter s (pumpEvents events) = State.Disconnected := by
  induction events generalizing s with
  | nil => simp at h
  | cons ev rest ih =>
    cases ev with
    | ConnectionClosed e => rfl
    | SubsystemChange n =>
      have h2 : rest.any isClosedEvent = true := by
        simpa [isClosedEvent] using h
      simp only [pumpEvents]
      exact ih h2 s

theorem stateAfter_runIteration_wf (retry : Nat) (o : ConnOutcome)
    (h : wellFormedOutcome o = true) (s : State) :
    stateAfter s (runIteration retry o) = State.Disconnected := by
  cases o with
  | fail e => rfl
  | ok c events =>
    have h2 : events.any isClosedEvent = true := h
    have e1 : stateAfter s (runIteration retry (ConnOutcome.ok c events)) =
        stateAfter (State.Connected c)
          (pumpEvents events ++ [Action.sleep retry]) := rfl
    rw [e1, stateAfter_append, stateAfter_pumpEvents_closed events h2]
    rfl

theorem pumpEvents_no_attempt (events : List ConnectionEvent) :
    Action.connectAttempt ∉ pumpEvents events := by
  induction events with
  | nil => simp [pumpEvents]
  | cons ev rest ih =>
    cases ev with
    | ConnectionClosed e => simp [pumpEvents]
    | SubsystemChange n => simp [pumpEvents, ih]

theorem runIteration_tail_no_attempt (retry : Nat) (o : ConnOutcome) :
    Action.connectAttempt ∉ (runIteration retry o).drop 1 := by
  cases o with
  | fail e => simp [runIteration]
  | ok c events =>
    simp [runIteration, List.mem_append, pumpEvents_no_attempt]

/-- C5: in every run of the reconnect loop whose connections end by the
distinguished closure event or by connect failure (the Session
Collaborator contract), the shared state holds `Disconnected` at the
moment every connect attempt begins — the transition to Disconnected
precedes the next attempt, so no stale handle reports as connected
there. -/
theorem runLoop_disconnected_before_attempt (retry : Nat)
    (outcomes : List ConnOutcome)
    (hwf : ∀ o ∈ outcomes, wellFormedOutcome o = true)
    (i : Nat) (hi : i < (runLoop retry outcomes).length)
    (ha : (runLoop retry outcomes)[i] = Action.connectAttempt) :
    stateAfter State.Disconnected ((runLoop retry outcomes).take i) =
      State.Disconnected := by
  induction outcomes generalizing i with
  | nil => simp [runLoop] at hi
  | cons o rest ih =>
    simp only [runLoop, List.map_cons, List.flatten_cons] at hi ha ⊢
    by_cases hlt : i < (runIteration retry o).length
    · rcases Nat.eq_zero_or_pos i with h0 | hpos
      · subst h0; rfl
      · exfalso
        have hval : (runIteration retry o)[i] = Action.connectAttempt := by
          rw [List.getElem_append_left hlt] at ha; exact ha
        have hd : i - 1 < ((runIteration retry o).drop 1).length := by
          simp only [List.length_drop]; omega
        have hdv : ((runIteration retry o).drop 1)[i - 1] =
            Action.connectAttempt := by
          rw [List.getElem_drop]
          have : 1 + (i - 1) = i := by omega
          simp only [this]
          exact hval
        exact runIteration_tail_no_attempt retry o (hdv ▸ List.getElem_mem hd)
    · have hge : (runIteration retry o).length ≤ i := Nat.le_of_not_lt hlt
      rw [List.take_append_eq_append_take, List.take_of_length_le hge,
        stateAfter_append,
        stateAfter_runIteration_wf retry o (hwf o (List.mem_cons_self _ _))]
      have hi2 : i - (runIteration retry o).length <
          ((rest.map (runIteration retry)).flatten).length := by
        rw [List.length_append] at hi; omega
      have ha2 : ((rest.map (runIteration retry)).flatten)[i -
          (runIteration retry o).length] = Action.connectAttempt := by
        rw [List.getElem_append_right hge] at ha; exact ha
      exact ih (fun o2 ho2 => hwf o2 (List.mem_cons_of_mem _ ho2)) _ hi2 ha2

/-- Witness for C5: after a failed attempt and a closed connection, the
state right before the second connect attempt (trace index 3) is
Disconnected. -/
theorem runLoop_disconnected_before_attempt_witness :
    stateAfter State.Disconnected
        ((runLoop 5 [ConnOutcome.fail 0,
          ConnOutcome.ok 3 [ConnectionEvent.ConnectionClosed 1]]).take 3) =
      State.Disconnected :=
  runLoop_disconnected_before_attempt 5
    [ConnOutcome.fail 0, ConnOutcome.ok 3 [ConnectionEvent.ConnectionClosed 1]]
    (by decide) 3 (by decide) (by decide)

theorem pumpEvents_filter_sleep (events : List ConnectionEvent) :
    (pumpEvents events).filter isSleep = [] := by
  induction events with
  | nil => rfl
  | cons ev rest ih =>
    cases ev with
    | ConnectionClosed e => rfl
    | SubsystemChange n => simp [pumpEvents, List.filter_cons, isSleep, ih]

theorem runIteration_filter_sleep (retry : Nat) (o : ConnOutcome) :
    (runIteration retry o).filter isSleep = [Action.sleep retry] := by
  cases o with
  | fail e => rfl
  | ok c events =>
    simp [runIteration, List.filter_cons, List.filter_append, isSleep,
      pumpEvents_filter_sleep]

theorem runIteration_countP_attempt (retry : Nat) (o : ConnOutcome) :
    (runIteration retry o).countP isAttempt = 1 := by
  cases o with
  | fail e => rfl
  | ok c events =>
    have hp : (pumpEvents events).countP isAttempt = 0 :=
      List.countP_eq_zero.mpr
        (fun a ha => by
          cases a <;> simp [isAttempt]
          exact pumpEvents_no_attempt events ha)
    simp [runIteration, List.countP_cons, List.countP_append, isAttempt, hp]

theorem runIteration_getLast (retry : Nat) (o : ConnOutcome) :
    (runIteration retry o).getLast? = some (Action.sleep retry) := by
  cases o with
  | fail e => rfl
  | ok c events =>
    have : runIteration retry (ConnOutcome.ok c events) =
        (Action.connectAttempt :: Action.setState (State.Connected c) ::
          Action.connSend c :: pumpEvents events) ++ [Action.sleep retry] := by
      simp [runIteration]
    rw [this]
    exact List.getLast?_concat _

/-- C8: every iteration of the reconnect loop begins with a connect
attempt and ends with a sleep of exactly the configured retry interval;
that sleep is the only one of the iteration, over the whole trace the
sleeps are exactly one fixed-interval sleep per attempt, and the number
of attempts equals the (arbitrarily large) number of iterations —
retries are unbounded and the interval never escalates. -/
theorem runLoop_fixed_retry_interval (retry : Nat)
    (outcomes : List ConnOutcome) :
    (runLoop retry outcomes).filter isSleep =
        List.replicate outcomes.length (Action.sleep retry) ∧
    (runLoop retry outcomes).countP isAttempt = outcomes.length ∧
    ∀ o ∈ outcomes,
      (runIteration retry o).head? = some Action.connectAttempt ∧
        (runIteration retry o).getLast? = some (Action.sleep retry) ∧
        (runIteration retry o).filter isSleep = [Action.sleep retry] ∧
        (runIteration retry o).countP isAttempt = 1 := by
  refine ⟨?_, ?_, ?_⟩
  · induction outcomes with
    | nil => rfl
    | cons o rest ih =>
      have hsplit : runLoop retry (o :: rest) =
          runIteration retry o ++ runLoop retry rest := by
        simp [runLoop]
      rw [hsplit, List.filter_append, runIteration_filter_sleep, ih,
        List.length_cons, List.replicate_succ]
      rfl
  · induction outcomes with
    | nil => rfl
    | cons o rest ih =>
      have hsplit : runLoop retry (o :: rest) =
          runIteration retry o ++ runLoop retry rest := by
        simp [runLoop]
      rw [hsplit, List.countP_append, runIteration_countP_attempt, ih,
        List.length_cons]
      omega
  · intro o ho
    refine ⟨?_, runIteration_getLast retry o,
      runIteration_filter_sleep retry o, runIteration_countP_attempt retry o⟩
    cases o <;> rfl

theorem pumpEvents_no_closure (events : List ConnectionEvent)
    (h : events.any isClosedEvent = false) :
    pumpEvents events = events.map Action.eventSend := by
  induction events with
  | nil => rfl
  | cons ev rest ih =>
    cases ev with
    | ConnectionClosed e => simp [isClosedEvent] at h
    | SubsystemChange n =>
      have h2 : rest.any isClosedEvent = false := by
        simpa [isClosedEvent] using h
      simp [pumpEvents, List.map_cons, ih h2]

theorem stateAfter_eventSends (s : State) (events : List ConnectionEvent) :
    stateAfter s (events.map Action.eventSend) = s := by
  induction events generalizing s with
  | nil => rfl
  | cons ev rest ih => exact ih s

/-- C10: when a connection's event stream ends without ever yielding the
distinguished connection-closed event, the loop iteration forwards every
event and then goes straight to the retry sleep with no state write
after the publish — so the state still holds `Connected` with the old
handle when the next connect attempt begins, and it is next overwritten
only by that new attempt's outcome. -/
theorem silent_stream_end_keeps_stale_connected (retry : Nat)
    (c : ClientHandle) (events : List ConnectionEvent)
    (h : events.any isClosedEvent = false) :
    runIteration retry (ConnOutcome.ok c events) =
        Action.connectAttempt :: Action.setState (State.Connected c) ::
          Action.connSend c ::
            (events.map Action.eventSend ++ [Action.sleep retry]) ∧
    (∀ s, stateAfter s (runIteration retry (ConnOutcome.ok c events)) =
      State.Connected c) ∧
    (∀ o2, stateAfter State.Disconnected
        (runLoop retry [ConnOutcome.ok c events, o2]) =
      stateAfter (State.Connected c) (runIteration retry o2)) := by
  have htrace : runIteration retry (ConnOutcome.ok c events) =
      Action.connectAttempt :: Action.setState (State.Connected c) ::
        Action.connSend c ::
          (events.map Action.eventSend ++ [Action.sleep retry]) := by
    simp [runIteration, pumpEvents_no_closure events h]
  have hstate : ∀ s,
      stateAfter s (runIteration retry (ConnOutcome.ok c events)) =
        State.Connected c := by
    intro s
    rw [htrace]
    have e1 : stateAfter s
        (Action.connectAttempt :: Action.setState (State.Connected c) ::
          Action.connSend c ::
            (events.map Action.eventSend ++ [Action.sleep retry])) =
        stateAfter (State.Connected c)
          (events.map Action.eventSend ++ [Action.sleep retry]) := rfl
    rw [e1, stateAfter_append, stateAfter_eventSends]
    rfl
  refine ⟨htrace, hstate, ?_⟩
  intro o2
  have hsplit : runLoop retry [ConnOutcome.ok c events, o2] =
      runIteration retry (ConnOutcome.ok c events) ++
        (runIteration retry o2 ++ []) := by
    simp [runLoop]
  rw [hsplit, stateAfter_append, hstate, List.append_nil]

/-- Witness for C10: a connection whose stream yields one ordinary event
and then silently ends leaves the state at `Connected 7` for the whole
iteration, including the sleep before the next attempt. -/
theorem silent_stream_end_keeps_stale_connected_witness :
    stateAfter State.Disconnected
        (runIteration 5 (ConnOutcome.ok 7 [ConnectionEvent.SubsystemChange 1])) =
      State.Connected 7 :=
  (silent_stream_end_keeps_stale_connected 5 7
    [ConnectionEvent.SubsystemChange 1] (by decide)).2.1 State.Disconnected

theorem sendAll_log {α : Type} (ch : BChannel α) (msgs : List α) :
    (sendAll ch msgs).log = ch.log ++ msgs := by
  induction msgs generalizing ch with
  | nil => simp [sendAll]
  | cons m rest ih =>
    show (sendAll (send ch m) rest).log = _
    rw [ih]
    simp [send]

theorem sendAll_capacity {α : Type} (ch : BChannel α) (msgs : List α) :
    (sendAll ch msgs).capacity = ch.capacity := by
  induction msgs generalizing ch with
  | nil => rfl
  | cons m rest ih =>
    show (sendAll (send ch m) rest).capacity = _
    rw [ih]
    rfl

theorem drainFuel_caught_up {α : Type} (fuel : Nat) (ch : BChannel α)
    (r : BReceiver) (h1 : ch.log.length - r.cursor < fuel)
    (h2 : ch.log.length - r.cursor ≤ ch.capacity) :
    drainFuel ch r fuel = ch.log.drop r.cursor := by
  induction fuel generalizing r with
  | zero => exact absurd h1 (Nat.not_lt_zero _)
  | succ fuel ih =>
    by_cases hle : ch.log.length ≤ r.cursor
    · simp [drainFuel, recvStep, hle, List.drop_eq_nil_of_le hle]
    · have hlt : r.cursor < ch.log.length := Nat.lt_of_not_le hle
      simp only [drainFuel, recvStep, hle, dite_false, dif_neg, h2, if_pos,
        List.get_eq_getElem]
      rw [ih ⟨r.cursor + 1⟩ (by simp; omega) (by simp; omega)]
      exact (List.drop_eq_getElem_cons hlt).symm

theorem drain_within_capacity {α : Type} (ch : BChannel α) (r : BReceiver)
    (h2 : ch.log.length - r.cursor ≤ ch.capacity) :
    drain ch r = ch.log.drop r.cursor :=
  drainFuel_caught_up _ ch r (by omega) h2

/-- The event stream of a connection that overflows the 32-slot event
channel: 33 ordinary events followed by the closure notice. -/
def overflowStream : List ConnectionEvent :=
  (List.range 33).map ConnectionEvent.SubsystemChange ++
    [ConnectionEvent.ConnectionClosed 0]

/-- Counterexample to C6 as stated: the supervisor forwards 33 events
before closure; a consumer that subscribed before the first event but
polls only afterwards does not observe all 33 — the 32-slot broadcast
buffer has already dropped the oldest one. -/
theorem event_delivery_counterexample :
    ¬ (drain (sendAll ⟨32, []⟩ (forwardedEvents overflowStream))
        (subscribe (⟨32, []⟩ : BChannel ConnectionEvent)) =
      forwardedEvents overflowStream) := by
  decide

/-- C6 (amended): for N events forwarded before closure, a consumer
subscribed before the first event observes all N in forwarding order,
provided N does not exceed the event channel capacity of 32 (a consumer
that falls further behind receives a lag signal instead and misses the
oldest events). -/
theorem event_delivery_within_capacity (log0 : List ConnectionEvent)
    (events : List ConnectionEvent)
    (h : (forwardedEvents events).length ≤ 32) :
    drain (sendAll ⟨32, log0⟩ (forwardedEvents events))
        (subscribe (⟨32, log0⟩ : BChannel ConnectionEvent)) =
      forwardedEvents events := by
  have hlog := sendAll_log (⟨32, log0⟩ : BChannel ConnectionEvent)
    (forwardedEvents events)
  have hcap := sendAll_capacity (⟨32, log0⟩ : BChannel ConnectionEvent)
    (forwardedEvents events)
  have hsub : (subscribe (⟨32, log0⟩ : BChannel ConnectionEvent)).cursor =
      log0.length := rfl
  rw [drain_within_capacity _ _ (by
    rw [hlog, hcap, hsub]
    simp only [List.length_append]
    omega)]
  rw [hlog, hsub]
  exact List.drop_left log0 _

/-- Witness for C6 (amended): two events forwarded before closure are
both observed, in order. -/
theorem event_delivery_within_capacity_witness :
    drain (sendAll ⟨32, []⟩ (forwardedEvents
        [ConnectionEvent.SubsystemChange 4, ConnectionEvent.SubsystemChange 5,
          ConnectionEvent.ConnectionClosed 0]))
        (subscribe (⟨32, []⟩ : BChannel ConnectionEvent)) =
      forwardedEvents
        [ConnectionEvent.SubsystemChange 4, ConnectionEvent.SubsystemChange 5,
          ConnectionEvent.ConnectionClosed 0] :=
  event_delivery_within_capacity []
    [ConnectionEvent.SubsystemChange 4, ConnectionEvent.SubsystemChange 5,
      ConnectionEvent.ConnectionClosed 0] (by decide)

theorem recvOnce_first {α : Type} (ch : BChannel α) (hcap : 1 ≤ ch.capacity)
    (f : α) (rest : List α) :
    recvOnce ch (f :: rest) = RecvResult.received f := by
  have h1 : ¬((ch.log ++ [f]).length ≤ ch.log.length) := by
    simp [List.length_append]
  have h2 : (ch.log ++ [f]).length - ch.log.length ≤ ch.capacity := by
    simp only [List.length_append, List.length_cons, List.length_nil]
    omega
  simp only [recvOnce, recvStep, subscribe, send, h1, dite_false, dif_neg,
    h2, if_pos, List.get_eq_getElem]
  rw [List.getElem_concat_length ch.log f ch.log.length rfl]

/-- C9: each `recv()` call subscribes freshly at the moment of the call
and resolves with the first event forwarded after that moment; events
forwarded between a call's resolution and the next call (`between`) are
returned by neither — the first call resolves with `e1`, the second with
the head of its own future, whatever lies in between. -/
theorem recv_fresh_subscription {α : Type} (ch : BChannel α)
    (hcap : 1 ≤ ch.capacity) (e1 : α) (between future : List α) :
    recvOnce ch (e1 :: (between ++ future)) = RecvResult.received e1 ∧
    recvOnce (sendAll ch (e1 :: between)) future =
      (match future with
        | [] => RecvResult.pending
        | f :: _ => RecvResult.received f) := by
  constructor
  · exact recvOnce_first ch hcap e1 _
  · cases future with
    | nil => rfl
    | cons f rest =>
      have hcap2 : 1 ≤ (sendAll ch (e1 :: between)).capacity := by
        rw [sendAll_capacity]; exact hcap
      exact recvOnce_first _ hcap2 f rest

/-- Witness for C9: a `recv()` call with events 5, 6, 7, 8 still to come
resolves with 5, the first event after the call. -/
theorem recv_fresh_subscription_witness :
    recvOnce (⟨32, [0]⟩ : BChannel Nat) [5, 6, 7, 8] =
      RecvResult.received 5 :=
  (recv_fresh_subscription (⟨32, [0]⟩ : BChannel Nat) (by decide)
    5 [6, 7] [8]).1

/-- C4: `wait_for_client()` resolves immediately with the published
handle whenever the state is `Connected`; when `Disconnected` it
suspends and resolves with the handle of the next successful connect
(the first `ok` outcome of the loop), stays suspended if no connect ever
succeeds, and any two waiters suspended over the same future connects
resolve with the same handle regardless of their channel positions. -/
theorem wait_for_client_spec (connCh : BChannel ClientHandle)
    (hcap : 1 ≤ connCh.capacity) (outcomes : List ConnOutcome) :
    (∀ c, wait_for_client (State.Connected c) connCh (connSends outcomes) =
      WaitOutcome.immediate c) ∧
    (∀ c, firstConnect outcomes = some c →
      wait_for_client State.Disconnected connCh (connSends outcomes) =
        WaitOutcome.suspendedResolved c) ∧
    (firstConnect outcomes = none →
      wait_for_client State.Disconnected connCh (connSends outcomes) =
        WaitOutcome.suspendedPending) ∧
    (∀ e rest, firstConnect (ConnOutcome.fail e :: rest) =
      firstConnect rest) ∧
    (∀ c events rest,
      firstConnect (ConnOutcome.ok c events :: rest) = some c) ∧
    (∀ ch2 : BChannel ClientHandle, 1 ≤ ch2.capacity →
      wait_for_client State.Disconnected connCh (connSends outcomes) =
        wait_for_client State.Disconnected ch2 (connSends outcomes)) := by
  refine ⟨fun c => rfl, ?_, ?_, fun e rest => rfl, fun c events rest => rfl,
    ?_⟩
  · intro c hc
    unfold firstConnect at hc
    cases hcs : connSends outcomes with
    | nil => rw [hcs] at hc; simp at hc
    | cons c0 r =>
      rw [hcs] at hc
      simp only [List.head?_cons, Option.some.injEq] at hc
      subst hc
      simp [wait_for_client, hcs, recvOnce_first connCh hcap]
  · intro hc
    unfold firstConnect at hc
    cases hcs : connSends outcomes with
    | nil => rfl
    | cons c0 r => rw [hcs] at hc; simp at hc
  · intro ch2 hcap2
    cases hcs : connSends outcomes with
    | nil => rfl
    | cons c0 r =>
      have e1 : wait_for_client State.Disconnected connCh (c0 :: r) =
          WaitOutcome.suspendedResolved c0 := by
        unfold wait_for_client
        rw [recvOnce_first connCh hcap c0 r]
      have e2 : wait_for_client State.Disconnected ch2 (c0 :: r) =
          WaitOutcome.suspendedResolved c0 := by
        unfold wait_for_client
        rw [recvOnce_first ch2 hcap2 c0 r]
      rw [e1, e2]

/-- Witness for C4: with a failed attempt followed by a successful
connect publishing handle 3, a waiter that found the state Disconnected
resolves with handle 3. -/
theorem wait_for_client_spec_witness :
    wait_for_client State.Disconnected ⟨8, []⟩
        (connSends [ConnOutcome.fail 0, ConnOutcome.ok 3 []]) =
      WaitOutcome.suspendedResolved 3 :=
  (wait_for_client_spec ⟨8, []⟩ (by decide)
    [ConnOutcome.fail 0, ConnOutcome.ok 3 []]).2.1 3 (by decide)

theorem collectSome_some {α : Type} (l : List (Option α)) (res : List α)
    (h : collectSome l = some res) :
    res.length = l.length ∧
      ∀ i, ∀ hi : i < l.length, ∀ hi2 : i < res.length,
        l[i] = some res[i] := by
  induction l generalizing res with
  | nil =>
    cases h
    exact ⟨rfl, fun i hi => by simp at hi⟩
  | cons a rest ih =>
    cases a with
    | none => simp [collectSome] at h
    | some x =>
      simp only [collectSome] at h
      cases hr : collectSome rest with
      | none => rw [hr] at h; simp at h
      | some res2 =>
        rw [hr] at h
        simp only [Option.map_some', Option.some.injEq] at h
        subst h
        obtain ⟨hlen, hidx⟩ := ih res2 hr
        refine ⟨by simp [hlen], ?_⟩
        intro i hi hi2
        cases i with
        | zero => rfl
        | succ j =>
          simp only [List.getElem_cons_succ]
          exact hidx j (by simpa using hi) (by simpa using hi2)

theorem collectSome_none {α : Type} (l : List (Option α))
    (h : none ∈ l) : collectSome l = none := by
  induction l with
  | nil => simp at h
  | cons a rest ih =>
    cases a with
    | none => rfl
    | some x =>
      have h2 : none ∈ rest := by
        rcases List.mem_cons.mp h with h3 | h3
        · exact absurd h3 (by simp)
        · exact h3
      simp [collectSome, ih h2]

theorem memberResolution_some (m : SupervisorView)
    (hcap : 1 ≤ m.connCh.capacity) (c : ClientHandle)
    (h : memberResolution m = some c) :
    m.state = State.Connected c ∨ m.futureConnects.head? = some c := by
  unfold memberResolution wait_for_client at h
  cases hst : m.state with
  | Connected c0 =>
    rw [hst] at h
    simp only at h
    cases h
    exact Or.inl rfl
  | Disconnected =>
    rw [hst] at h
    cases hf : m.futureConnects with
    | nil => rw [hf] at h; simp [recvOnce] at h
    | cons f r =>
      rw [hf] at h
      rw [recvOnce_first m.connCh hcap f r] at h
      simp only [Option.some.injEq] at h
      exact Or.inr (by rw [List.head?_cons, h])

/-- C7: when `wait_for_all_clients()` resolves, every one of the N
member supervisors has connected at least once — each resolved handle is
the member's current connection or its next successful connect — and the
resolved list pairs handles with members positionally, i.e. in registry
order; a member that never connects keeps the join unresolved. -/
theorem wait_for_all_clients_spec (members : List SupervisorView)
    (hcap : ∀ m ∈ members, 1 ≤ m.connCh.capacity) :
    (∀ hs, wait_for_all_clients members = some hs →
      hs.length = members.length ∧
        ∀ i, ∀ hi : i < members.length, ∀ hi2 : i < hs.length,
          memberResolution members[i] = some hs[i] ∧
            (members[i].state = State.Connected hs[i] ∨
              members[i].futureConnects.head? = some hs[i])) ∧
    (∀ m ∈ members, m.state = State.Disconnected → m.futureConnects = [] →
      wait_for_all_clients members = none) := by
  constructor
  · intro hs h
    unfold wait_for_all_clients at h
    obtain ⟨hlen, hidx⟩ := collectSome_some (members.map memberResolution) hs h
    rw [List.length_map] at hlen
    refine ⟨hlen, ?_⟩
    intro i hi hi2
    have hmi := hidx i (by simpa using hi) hi2
    rw [List.getElem_map] at hmi
    exact ⟨hmi, memberResolution_some members[i]
      (hcap members[i] (List.getElem_mem hi)) hs[i] hmi⟩
  · intro m hm hst hfut
    unfold wait_for_all_clients
    apply collectSome_none
    refine List.mem_map.mpr ⟨m, hm, ?_⟩
    unfold memberResolution wait_for_client
    rw [hst, hfut]
    rfl

/-- Witness for C7: one member already connected and one member that
never connects — the join does not resolve. -/
theorem wait_for_all_clients_spec_witness :
    wait_for_all_clients
        [⟨State.Connected 1, ⟨8, []⟩, []⟩,
          ⟨State.Disconnected, ⟨8, []⟩, []⟩] = none :=
  (wait_for_all_clients_spec
    [⟨State.Connected 1, ⟨8, []⟩, []⟩, ⟨State.Disconnected, ⟨8, []⟩, []⟩]
    (by
      intro m hm
      rcases List.mem_cons.mp hm with h | h
      · rw [h]; decide
      · rcases List.mem_cons.mp h with h2 | h2
        · rw [h2]; decide
        · simp at h2)).2
    ⟨State.Disconnected, ⟨8, []⟩, []⟩
    (List.Mem.tail _ (List.Mem.head _)) rfl rfl

end MpdUtils
